import Mathlib

/-!
Shallow embedding of the Necromoire MaxMSP bridge
(`NecromoireMKiTest_Enhanced.py`, with the legacy variant
`NecromoireMKiTest.py` where noted).  Bytes are `List Nat` (each entry a
byte value), Python strings of hex input are `List Char`, timestamps are
abstract `Nat` parameters.  Stateful methods become explicit
state-passing functions; Python exceptions that a caller catches become
`Option`/`Bool` results that also carry the (possibly partially
mutated) state, mirroring Python's in-place field assignments.
-/

namespace Necromoire

/-! ## Wire codec (`UDPHandler._encode_osc_message` / `_decode_osc_message`) -/

/-- `data.to_bytes(4, byteorder='big', signed=True)`: the 4-byte
big-endian two's-complement encoding of an integer (defined for any
`Int` via reduction mod 2^32; Python raises `OverflowError` outside
the signed 32-bit range, which callers never trigger). -/
def int32BE (v : Int) : List Nat :=
  let u : Nat := (v % (2 ^ 32)).toNat
  [u / 2 ^ 24 % 256, u / 2 ^ 16 % 256, u / 2 ^ 8 % 256, u % 256]

/-- Big-endian value of a byte string (used to state what `int32BE`
means, independently of how it is computed). -/
def beVal (bs : List Nat) : Nat :=
  bs.foldl (fun a b => a * 256 + b) 0

/-- `UDPHandler._encode_osc_message` (identical to the legacy
`encode_data_in_bytes`): NUL-terminated address zero-padded to a 4-byte
boundary, the fixed type tag `,i\x00\x00` (bytes 44, 105, 0, 0), then
the big-endian signed 32-bit payload. -/
def encode_osc_message (addr : List Nat) (v : Int) : List Nat :=
  let encodedAddr := addr ++ [0]
  let padding := (4 - encodedAddr.length % 4) % 4
  (encodedAddr ++ List.replicate padding 0) ++ ([44, 105, 0, 0] ++ int32BE v)

/-- `bytes.find(b'\x00')`: index of the first NUL byte, if any. -/
def findZero : List Nat → Option Nat
  | [] => none
  | b :: bs => if b = 0 then some 0 else (findZero bs).map (· + 1)

/-- `bytes.find(b'\x00', off)`: index of the first NUL byte at
position `off` or later, if any (absolute index, as in Python). -/
def findZeroFrom (data : List Nat) (off : Nat) : Option Nat :=
  (findZero (data.drop off)).map (· + off)

/-- `(n + 4) & ~0x03` for a nonnegative `n`: clearing the two low bits
rounds down to a multiple of 4. -/
def alignDown4 (n : Nat) : Nat := 4 * ((n + 4) / 4)

/-- `UDPHandler._decode_osc_message`, at the byte level: returns the
address bytes and the raw payload bytes.  `none` is the case where the
Python body raises (no NUL terminator for the address, or the buffer
ends before the type-tag section) and the method's `except` clause
returns the sentinel `("", "")`.  The subsequent UTF-8/Latin-1 text
decoding of the payload is not needed by any claim and is not
modelled.  -/
def decode_osc_message (data : List Nat) : Option (List Nat × List Nat) :=
  match findZero data with
  | none => none
  | some addressEnd =>
    let address := data.take addressEnd
    let dataOffset := alignDown4 addressEnd
    if dataOffset ≥ data.length then none
    else
      let dataTagEnd := match findZeroFrom data dataOffset with
        | some j => j
        | none => data.length
      let inputOffset := alignDown4 dataTagEnd
      if inputOffset ≥ data.length then some (address, [])
      else some (address, data.drop inputOffset)

/-! ## Input reassembly (`InputState`, `UDPHandler._handle_user_input`) -/

/-- `InputState`: the pending two-part input for one sender. -/
structure InputState where
  uin1 : String := ""
  uin2 : String := ""
  timestamp : Nat := 0
  is_complete : Bool := false
deriving DecidableEq, Repr

instance : Inhabited InputState := ⟨{}⟩

/-- `InputState.add_input`: record the half named by `flag`, refresh
the timestamp, and recompute completeness as the truthiness of
`uin1 and uin2` (both halves non-empty).  Returns the updated state
and the completeness flag. -/
def InputState.add_input (s : InputState) (flag : String) (data : String)
    (now : Nat) : InputState × Bool :=
  let s₁ :=
    if flag = "/uin1" then { s with uin1 := data }
    else if flag = "/uin2" then { s with uin2 := data }
    else s
  let complete := s₁.uin1 ≠ "" && s₁.uin2 ≠ ""
  ({ s₁ with timestamp := now, is_complete := complete }, complete)

/-- `InputState.get_combined_hex`. -/
def InputState.get_combined_hex (s : InputState) : String :=
  s.uin1 ++ s.uin2

/-- Sender identity: `(host, port)` of the UDP peer. -/
abbrev SenderKey := String × Nat

/-- The `pending_inputs` dictionary of `UDPHandler`. -/
abbrev PendingMap := SenderKey → Option InputState

/-- `UDPHandler._handle_user_input`: ensure a pending entry exists for
the sender, record the fragment, and if that completes the pair emit
the combined hex string and delete the entry.  Returns the new pending
map and the emitted combined input, if any.  (The timeout task spawned
in the incomplete branch is time-driven and not modelled here.) -/
def handle_user_input (pending : PendingMap) (flag : String) (data : String)
    (addr : SenderKey) (now : Nat) : PendingMap × Option String :=
  let inputState := match pending addr with
    | some s => s
    | none => ({} : InputState)
  let (st, complete) := inputState.add_input flag data now
  if complete then
    (fun k => if k = addr then none else pending k, some st.get_combined_hex)
  else
    (fun k => if k = addr then some st else pending k, none)

/-! ## Debounce buffer (`InputBuffer`, legacy `buffer_processor`) -/

/-- One entry of `InputBuffer.buffer`: `{'data': ..., 'timestamp': ...}`. -/
structure BufferEntry where
  data : String
  timestamp : Nat
deriving DecidableEq, Repr

/-- `InputBuffer.add_combined_input`: append to the buffer tail. -/
def add_combined_input (buffer : List BufferEntry) (combinedHex : String)
    (now : Nat) : List BufferEntry :=
  buffer ++ [⟨combinedHex, now⟩]

/-- One pass of the loop body of `InputBuffer.process_buffer` (the
legacy `buffer_processor` has the same body): if the buffer is
non-empty, take `buffer[-1]`, clear the buffer, and hand that single
item downstream.  Returns the buffer afterwards and the item
forwarded, if any. -/
def process_buffer (buffer : List BufferEntry) : List BufferEntry × Option String :=
  if h : buffer = [] then (buffer, none)
  else ([], some (buffer.getLast h).data)

/-! ## State model (`SystemState`) -/

/-- `SystemState`: sustain, density function and key center nibbles
plus the 8 ranks of 4 nibbles each. -/
structure SystemState where
  sustain : Nat := 0
  density_function : Nat := 0
  key_center : Nat := 0
  ranks : List (List Nat) := List.replicate 8 (List.replicate 4 0)
deriving DecidableEq, Repr

/-- Python `int(c, 16)` on a single character: the value of an ASCII
hexadecimal digit, or `none` when `int` raises `ValueError`. -/
def toHexDigit (c : Char) : Option Nat :=
  if '0' ≤ c ∧ c ≤ '9' then some (c.toNat - '0'.toNat)
  else if 'a' ≤ c ∧ c ≤ 'f' then some (c.toNat - 'a'.toNat + 10)
  else if 'A' ≤ c ∧ c ≤ 'F' then some (c.toNat - 'A'.toNat + 10)
  else none

/-- The list comprehension `[int(char, 16) for char in rank_hex]`:
all characters are converted before anything is assigned, so a bad
character leaves the rank untouched (`none`). -/
def parseRank (rankHex : List Char) : Option (List Nat) :=
  rankHex.mapM toHexDigit

/-- The `for i in range(8)` loop of
`SystemState.update_from_combined_input`, over the remaining indices:
each iteration slices `combined_hex[3+4*i : 3+4*i+4]`, converts it,
and assigns `self.ranks[i]`.  A conversion failure raises out of the
loop, leaving the ranks assigned so far in place (`false` result with
the partially updated state). -/
def updateRanksLoop (s : SystemState) (combinedHex : List Char) :
    List Nat → SystemState × Bool
  | [] => (s, true)
  | i :: rest =>
    let startIdx := 3 + i * 4
    match parseRank ((combinedHex.drop startIdx).take 4) with
    | none => (s, false)
    | some r => updateRanksLoop { s with ranks := s.ranks.set i r } combinedHex rest

/-- `SystemState.update_from_combined_input`: length check, then
positional parse of sustain, density function, key center and the 8
ranks, assigning each field as soon as its characters convert.  The
`Bool` is `true` on success; on failure (`ValueError` raised) the
returned state is whatever has been assigned up to the raise, exactly
as in Python's in-place mutation. -/
def update_from_combined_input (s : SystemState) (combinedHex : List Char) :
    SystemState × Bool :=
  let expectedLength := 3 + 8 * 4
  if combinedHex.length ≠ expectedLength then (s, false)
  else
    match toHexDigit (combinedHex.getD 0 ' ') with
    | none => (s, false)
    | some d0 =>
      let s₁ := { s with sustain := d0 }
      match toHexDigit (combinedHex.getD 1 ' ') with
      | none => (s₁, false)
      | some d1 =>
        let s₂ := { s₁ with density_function := d1 }
        match toHexDigit (combinedHex.getD 2 ' ') with
        | none => (s₂, false)
        | some d2 =>
          updateRanksLoop { s₂ with key_center := d2 } combinedHex (List.range 8)

/-! ## DBN engine (`DBNEngine`) -/

/-- The recursive scan inside `DBNEngine._check_bypass_rank`:
`enumerate(zip(current.ranks, previous.ranks))`, returning `i + 1` at
the first pair that differs (here `i` already carries the 1-based
count) and `0` if none does. -/
def checkBypassGo (i : Nat) : List (List Nat × List Nat) → Nat
  | [] => 0
  | (c, p) :: rest => if c ≠ p then i else checkBypassGo (i + 1) rest

/-- `DBNEngine._check_bypass_rank` (legacy `checkBypass` scans the
same rank pairs): 1-based index of the first rank whose value differs
between `current` and `previous`, 0 if none differs. -/
def check_bypass_rank (current previous : SystemState) : Nat :=
  checkBypassGo 1 (current.ranks.zip previous.ranks)

/-- The branch selected by `DBNEngine._run_dbn_algorithm`. -/
inductive DbnPath where
  | sendCurrent
  | fullDbn
  | substituteRank (rankIndex : Nat)
deriving DecidableEq, Repr

/-- The dispatch of `DBNEngine._run_dbn_algorithm`:
`bypass_rank == 0` → re-emit current values, `bypass_rank < 7` → full
DBN, otherwise → substitute that rank. -/
def run_dbn_dispatch (current previous : SystemState) : DbnPath :=
  let bypassRank := check_bypass_rank current previous
  if bypassRank = 0 then .sendCurrent
  else if bypassRank < 7 then .fullDbn
  else .substituteRank bypassRank

/-- `DBNEngine._send_current_values`: the fixed message list
`[("/sustain", sustain), ("/keyCenter", key_center)]`. -/
def send_current_values (current : SystemState) : List (String × Nat) :=
  [("/sustain", current.sustain), ("/keyCenter", current.key_center)]

/-- `DBNEngine._execute_full_dbn`: placeholder, re-emits current values. -/
def execute_full_dbn (current : SystemState) : List (String × Nat) :=
  send_current_values current

/-- `DBNEngine._substitute_rank`: placeholder, re-emits current values. -/
def substitute_rank (rankIndex : Nat) (current : SystemState) :
    List (String × Nat) :=
  send_current_values current

/-- `DBNEngine._run_dbn_algorithm`: dispatch on the bypass rank and
run the selected branch. -/
def run_dbn_algorithm (current previous : SystemState) : List (String × Nat) :=
  match run_dbn_dispatch current previous with
  | .sendCurrent => send_current_values current
  | .fullDbn => execute_full_dbn current
  | .substituteRank i => substitute_rank i current

/-- The `current_state` / `previous_state` pair held by `DBNEngine`. -/
structure EngineState where
  current : SystemState := {}
  previous : SystemState := {}
deriving DecidableEq, Repr

/-- `DBNEngine.process_input`: snapshot `current` into `previous`
(via `SystemState.copy`), parse the new input into `current`, and on
success run the DBN and return its messages; the `except` clause
swallows a parse failure, so no messages are produced then (the
partially updated `current` and the overwritten `previous` remain). -/
def process_input (e : EngineState) (combinedHex : List Char) :
    EngineState × List (String × Nat) :=
  let previous' := e.current
  let (current', ok) := update_from_combined_input e.current combinedHex
  if ok then
    ({ current := current', previous := previous' },
     run_dbn_algorithm current' previous')
  else
    ({ current := current', previous := previous' }, [])

/-! ## Heap-level rendering of `SystemState.copy`

Python rank lists are mutable objects on a heap; `SystemState.copy`
builds `ranks=[rank.copy() for rank in self.ranks]`, i.e. it allocates
a fresh cell per rank holding a copy of its contents.  To state the
storage-independence of the snapshot we render the heap explicitly:
a `Store` is the list of allocated rank cells and a state holds
references (indices) into it. -/

/-- The heap of rank-list cells. -/
abbrev Store := List (List Nat)

/-- A `SystemState` whose ranks are references into a `Store`. -/
structure StoredSystemState where
  sustain : Nat := 0
  density_function : Nat := 0
  key_center : Nat := 0
  rankRefs : List Nat := []
deriving DecidableEq, Repr

/-- Dereference: the pure value of a stored state under a store. -/
def readStored (s : StoredSystemState) (st : Store) : SystemState :=
  { sustain := s.sustain
    density_function := s.density_function
    key_center := s.key_center
    ranks := s.rankRefs.map fun r => st.getD r [] }

/-- All rank references of a stored state are live. -/
def StoredWF (s : StoredSystemState) (st : Store) : Prop :=
  ∀ r ∈ s.rankRefs, r < st.length

/-- `SystemState.copy` at the heap level: allocate one fresh cell per
rank, each holding a copy of the rank's contents
(`[rank.copy() for rank in self.ranks]`), and return a state whose
references point at the fresh cells.  Scalar fields are immutable
Python ints and are copied by value. -/
def copyStored (s : StoredSystemState) (st : Store) : StoredSystemState × Store :=
  ({ s with rankRefs := (List.range s.rankRefs.length).map (st.length + ·) },
   st ++ s.rankRefs.map fun r => st.getD r [])

/-- The specification's description of `classify()`, written from its
words for refinement comparison with `check_bypass_rank`: scan ranks
in order 1..8; return the 1-based index of the first rank whose value
differs from `previous`; return 0 if no rank differs. -/
def specFirstChangedRank (current previous : SystemState) : Nat :=
  match (List.range 8).find?
      (fun i => current.ranks.getD i [] ≠ previous.ranks.getD i []) with
  | some i => i + 1
  | none => 0

end Necromoire

namespace Necromoire

/-! # Theorems -/

/-- The scan of `checkBypassGo` agrees with a `find?` over the index
range of the zipped rank lists. -/
theorem checkBypassGo_eq_find (cs : List (List Nat)) :
    ∀ (ps : List (List Nat)) (k : Nat),
      checkBypassGo k (cs.zip ps) =
        match (List.range (min cs.length ps.length)).find?
            (fun i => cs.getD i [] ≠ ps.getD i []) with
        | some i => i + k
        | none => 0 := by
  induction cs with
  | nil => intro ps k; simp [checkBypassGo]
  | cons c cs ih =>
    intro ps k
    cases ps with
    | nil => simp [checkBypassGo]
    | cons p ps =>
      rw [List.zip_cons_cons]
      show (if c ≠ p then k else checkBypassGo (k + 1) (cs.zip ps)) = _
      have hmin : min (c :: cs).length (p :: ps).length
          = min cs.length ps.length + 1 := by
        simp [Nat.succ_min_succ]
      rw [hmin, List.range_succ_eq_map]
      by_cases hcp : c = p
      · have hpred : ((fun i =>
            decide ((c :: cs).getD i [] ≠ (p :: ps).getD i [])) ∘ Nat.succ)
            = fun i => decide (cs.getD i [] ≠ ps.getD i []) := by
          funext i
          simp [Function.comp, List.getD_cons_succ]
        rw [if_neg (by simp [hcp]), List.find?_cons_of_neg _ (by simp [hcp]),
          List.find?_map, hpred, ih ps (k + 1)]
        rcases h : (List.range (min cs.length ps.length)).find?
            (fun i => decide (cs.getD i [] ≠ ps.getD i [])) with _ | i
        · rfl
        · simp only [Option.map_some', Nat.succ_eq_add_one]
          rw [← Nat.add_assoc]
          exact Nat.add_right_comm i k 1
      · rw [if_pos hcp, List.find?_cons_of_pos _ (by simpa using hcp)]
        simp

/-- C3: `classify()` (the code's `_check_bypass_rank`) returns the
1-based index of the first rank, scanning in order 1..8, whose value
differs from `previous` (0 if none differs), and the result is
independent of the sustain, density-function and key-center fields. -/
theorem classify_first_changed_rank (current previous : SystemState)
    (hc : current.ranks.length = 8) (hp : previous.ranks.length = 8) :
    check_bypass_rank current previous = specFirstChangedRank current previous
  ∧ ∀ s d k s' d' k',
      check_bypass_rank
          { current with sustain := s, density_function := d, key_center := k }
          { previous with sustain := s', density_function := d', key_center := k' }
        = check_bypass_rank current previous := by
  refine ⟨?_, fun _ _ _ _ _ _ => rfl⟩
  rw [check_bypass_rank, checkBypassGo_eq_find, hc, hp]
  rfl

/-- Witness for C3 at the spec's own test points: only rank 3 changed
gives 3, all ranks equal gives 0, only rank 8 changed gives 8. -/
theorem classify_first_changed_rank_witness :
    check_bypass_rank
        { ranks := [[0,0,0,0],[0,0,0,0],[0,0,0,1],[0,0,0,0],
                    [0,0,0,0],[0,0,0,0],[0,0,0,0],[0,0,0,0]] } {} = 3
  ∧ check_bypass_rank {} {} = 0
  ∧ check_bypass_rank
        { ranks := [[0,0,0,0],[0,0,0,0],[0,0,0,0],[0,0,0,0],
                    [0,0,0,0],[0,0,0,0],[0,0,0,0],[0,0,0,1]] } {} = 8 := by
  refine ⟨?_, ?_, ?_⟩
  · exact ((classify_first_changed_rank
      { ranks := [[0,0,0,0],[0,0,0,0],[0,0,0,1],[0,0,0,0],
                  [0,0,0,0],[0,0,0,0],[0,0,0,0],[0,0,0,0]] } {}
      (by decide) (by decide)).1).trans (by decide)
  · exact ((classify_first_changed_rank {} {} (by decide) (by decide)).1).trans
      (by decide)
  · exact ((classify_first_changed_rank
      { ranks := [[0,0,0,0],[0,0,0,0],[0,0,0,0],[0,0,0,0],
                  [0,0,0,0],[0,0,0,0],[0,0,0,0],[0,0,0,1]] } {}
      (by decide) (by decide)).1).trans (by decide)

/-- C4: every branch of the DBN dispatch currently produces the same
output, the ordered message list
`[("/sustain", sustain), ("/keyCenter", key_center)]` of the current
state, independent of the bypass index. -/
theorem all_paths_reemit_current (current previous : SystemState) :
    run_dbn_algorithm current previous =
      [("/sustain", current.sustain), ("/keyCenter", current.key_center)] := by
  rcases hd : run_dbn_dispatch current previous with _ | _ | i <;>
    simp [run_dbn_algorithm, hd, execute_full_dbn, substitute_rank,
      send_current_values]

/-- C1 counterexample: with only rank 7 changed the bypass index is 7,
yet the dispatch takes the single-rank-substitution branch, not the
"full recompute" branch the claim assigns to indices 1..7. -/
theorem dispatch_rank7_takes_substitution :
    check_bypass_rank
        { ranks := [[0,0,0,0],[0,0,0,0],[0,0,0,0],[0,0,0,0],
                    [0,0,0,0],[0,0,0,0],[0,0,0,1],[0,0,0,0]] } {} = 7
  ∧ run_dbn_dispatch
        { ranks := [[0,0,0,0],[0,0,0,0],[0,0,0,0],[0,0,0,0],
                    [0,0,0,0],[0,0,0,0],[0,0,0,1],[0,0,0,0]] } {}
      = DbnPath.substituteRank 7
  ∧ run_dbn_dispatch
        { ranks := [[0,0,0,0],[0,0,0,0],[0,0,0,0],[0,0,0,0],
                    [0,0,0,0],[0,0,0,0],[0,0,0,1],[0,0,0,0]] } {}
      ≠ DbnPath.fullDbn := by decide

/-- C1 as amended: bypass index 0 selects the re-emit branch, indices
1..6 select the full-recompute branch, and indices 7 and above (7 or 8
for well-formed states) select the single-rank-substitution branch. -/
theorem dispatch_matches_bypass_index (current previous : SystemState) :
    (check_bypass_rank current previous = 0 →
      run_dbn_dispatch current previous = DbnPath.sendCurrent)
  ∧ (1 ≤ check_bypass_rank current previous →
      check_bypass_rank current previous ≤ 6 →
      run_dbn_dispatch current previous = DbnPath.fullDbn)
  ∧ (7 ≤ check_bypass_rank current previous →
      run_dbn_dispatch current previous
        = DbnPath.substituteRank (check_bypass_rank current previous)) := by
  refine ⟨fun h0 => ?_, fun h1 h6 => ?_, fun h7 => ?_⟩ <;>
    simp only [run_dbn_dispatch] <;> split_ifs <;>
    first | rfl | (exfalso; omega)

/-- Witness for the amended C1 at concrete states hitting all three
branches (bypass indices 0, 1 and 8). -/
theorem dispatch_matches_bypass_index_witness :
    run_dbn_dispatch {} {} = DbnPath.sendCurrent
  ∧ run_dbn_dispatch
        { ranks := [[0,0,0,1],[0,0,0,0],[0,0,0,0],[0,0,0,0],
                    [0,0,0,0],[0,0,0,0],[0,0,0,0],[0,0,0,0]] } {}
      = DbnPath.fullDbn
  ∧ run_dbn_dispatch
        { ranks := [[0,0,0,0],[0,0,0,0],[0,0,0,0],[0,0,0,0],
                    [0,0,0,0],[0,0,0,0],[0,0,0,0],[0,0,0,1]] } {}
      = DbnPath.substituteRank 8 := by
  refine ⟨(dispatch_matches_bypass_index {} {}).1 (by decide),
    (dispatch_matches_bypass_index
      { ranks := [[0,0,0,1],[0,0,0,0],[0,0,0,0],[0,0,0,0],
                  [0,0,0,0],[0,0,0,0],[0,0,0,0],[0,0,0,0]] } {}).2.1
      (by decide) (by decide), ?_⟩
  have h := (dispatch_matches_bypass_index
    { ranks := [[0,0,0,0],[0,0,0,0],[0,0,0,0],[0,0,0,0],
                [0,0,0,0],[0,0,0,0],[0,0,0,0],[0,0,0,1]] } {}).2.2 (by decide)
  rw [show check_bypass_rank
      { ranks := [[0,0,0,0],[0,0,0,0],[0,0,0,0],[0,0,0,0],
                  [0,0,0,0],[0,0,0,0],[0,0,0,0],[0,0,0,1]] } ({} : SystemState)
      = 8 from by decide] at h
  exact h

/-- C2 counterexample: the 35-character input `"0z000...0"` passes the
shape check and fails the charset check at position 1, but by then
`sustain` has already been overwritten: starting from `sustain = 5`
the failed update leaves `sustain = 0`, so the state is modified. -/
theorem invalid_digit_modifies_state :
    ('0' :: 'z' :: List.replicate 33 '0').length = 3 + 8 * 4
  ∧ toHexDigit 'z' = none
  ∧ (update_from_combined_input { sustain := 5 }
      ('0' :: 'z' :: List.replicate 33 '0')).2 = false
  ∧ (update_from_combined_input { sustain := 5 }
      ('0' :: 'z' :: List.replicate 33 '0')).1.sustain
      ≠ ({ sustain := 5 } : SystemState).sustain := by decide

/-- C2 as amended: an input failing the shape (length) check leaves
the current state unmodified and produces no outbound messages; an
input failing the charset check still produces no outbound messages,
but fields positioned before the first invalid character may already
have been overwritten. -/
theorem failed_update_leaves_no_messages (e : EngineState)
    (combinedHex : List Char) :
    (combinedHex.length ≠ 3 + 8 * 4 →
      (process_input e combinedHex).1.current = e.current
      ∧ (process_input e combinedHex).2 = [])
  ∧ ((update_from_combined_input e.current combinedHex).2 = false →
      (process_input e combinedHex).2 = []) := by
  constructor
  · intro hlen
    have hup : update_from_combined_input e.current combinedHex
        = (e.current, false) := by
      unfold update_from_combined_input
      simp [hlen]
    simp [process_input, hup]
  · intro hfail
    rcases hu : update_from_combined_input e.current combinedHex with ⟨c', ok⟩
    rw [hu] at hfail
    simp only at hfail
    simp [process_input, hu, hfail]

/-- Witness for the amended C2: the spec's too-short input `"01"`
leaves `current` unchanged with no messages, and the charset-failing
input produces no messages. -/
theorem failed_update_leaves_no_messages_witness :
    (process_input {} ['0', '1']).1.current = ({} : EngineState).current
  ∧ (process_input {} ['0', '1']).2 = []
  ∧ (process_input { current := { sustain := 5 } }
      ('0' :: 'z' :: List.replicate 33 '0')).2 = [] :=
  ⟨((failed_update_leaves_no_messages {} ['0', '1']).1 (by decide)).1,
   ((failed_update_leaves_no_messages {} ['0', '1']).1 (by decide)).2,
   (failed_update_leaves_no_messages { current := { sustain := 5 } }
      ('0' :: 'z' :: List.replicate 33 '0')).2 (by decide)⟩

/-- C8: a flush on a buffer that ends with a pushed item `d` forwards
exactly `d` downstream, discards everything else, and leaves the
buffer empty; a flush on an empty buffer forwards nothing. -/
theorem flush_forwards_last (buffer : List BufferEntry)
    (items : List (String × Nat)) (d : String) (now : Nat) :
    process_buffer
        ((items ++ [(d, now)]).foldl
          (fun b it => add_combined_input b it.1 it.2) buffer)
      = ([], some d)
  ∧ process_buffer [] = ([], none) := by
  constructor
  · rw [List.foldl_append]
    simp [process_buffer, add_combined_input, List.getLast_append]
  · rfl

/-- C6: from a sender with no pending entry, fragments `/uin1="ABC"`
and `/uin2="DEF"` — in either arrival order — produce no combined
input on the first fragment, exactly the combined input `"ABCDEF"`
(uin1 part first) on the second, and leave the sender's pending entry
removed. -/
theorem reassembly_two_halves (pending : PendingMap) (addr : SenderKey)
    (t₁ t₂ : Nat) (h : pending addr = none) :
    ((handle_user_input pending "/uin1" "ABC" addr t₁).2 = none
      ∧ (handle_user_input (handle_user_input pending "/uin1" "ABC" addr t₁).1
          "/uin2" "DEF" addr t₂).2 = some "ABCDEF"
      ∧ (handle_user_input (handle_user_input pending "/uin1" "ABC" addr t₁).1
          "/uin2" "DEF" addr t₂).1 addr = none)
  ∧ ((handle_user_input pending "/uin2" "DEF" addr t₁).2 = none
      ∧ (handle_user_input (handle_user_input pending "/uin2" "DEF" addr t₁).1
          "/uin1" "ABC" addr t₂).2 = some "ABCDEF"
      ∧ (handle_user_input (handle_user_input pending "/uin2" "DEF" addr t₁).1
          "/uin1" "ABC" addr t₂).1 addr = none) := by
  constructor
  · have h₁ : handle_user_input pending "/uin1" "ABC" addr t₁
        = (fun k => if k = addr
            then some { uin1 := "ABC", uin2 := "", timestamp := t₁,
                        is_complete := false }
            else pending k, none) := by
      simp [handle_user_input, InputState.add_input, h]
    refine ⟨by rw [h₁], ?_, ?_⟩ <;>
      rw [h₁] <;>
      simp [handle_user_input, InputState.add_input, InputState.get_combined_hex]
  · have h₁ : handle_user_input pending "/uin2" "DEF" addr t₁
        = (fun k => if k = addr
            then some { uin1 := "", uin2 := "DEF", timestamp := t₁,
                        is_complete := false }
            else pending k, none) := by
      simp [handle_user_input, InputState.add_input, h]
    refine ⟨by rw [h₁], ?_, ?_⟩ <;>
      rw [h₁] <;>
      simp [handle_user_input, InputState.add_input, InputState.get_combined_hex]

/-- Witness for C6 at a concrete sender with an empty pending map. -/
theorem reassembly_two_halves_witness :
    (handle_user_input (fun _ => none) "/uin1" "ABC" ("127.0.0.1", 1761) 0).2
      = none
  ∧ (handle_user_input
      (handle_user_input (fun _ => none) "/uin1" "ABC" ("127.0.0.1", 1761) 0).1
      "/uin2" "DEF" ("127.0.0.1", 1761) 1).2 = some "ABCDEF"
  ∧ (handle_user_input
      (handle_user_input (fun _ => none) "/uin1" "ABC" ("127.0.0.1", 1761) 0).1
      "/uin2" "DEF" ("127.0.0.1", 1761) 1).1 ("127.0.0.1", 1761) = none :=
  (reassembly_two_halves (fun _ => none) ("127.0.0.1", 1761) 0 1 rfl).1

/-- C10: under the expected tags, a fragment carrying the empty string
never yields a combined input, and any emitted combined input is the
concatenation of two non-empty halves — completion is decided by the
truthiness of both stored halves, not by both tags having arrived. -/
theorem empty_half_never_completes (pending : PendingMap) (flag data : String)
    (addr : SenderKey) (now : Nat)
    (hflag : flag = "/uin1" ∨ flag = "/uin2") :
    (data = "" → (handle_user_input pending flag data addr now).2 = none)
  ∧ ∀ c, (handle_user_input pending flag data addr now).2 = some c →
      ∃ s₁ s₂ : String, c = s₁ ++ s₂ ∧ s₁ ≠ "" ∧ s₂ ≠ "" := by
  rcases hs : (match pending addr with
    | some s => s
    | none => ({} : InputState)) with ⟨u1, u2, ts, cpl⟩
  rcases hflag with hflag | hflag <;> subst hflag
  · constructor
    · intro hdata
      subst hdata
      simp [handle_user_input, InputState.add_input, hs]
    · intro c hc
      by_cases hd : data = ""
      · subst hd
        simp [handle_user_input, InputState.add_input, hs] at hc
      · by_cases hu2 : u2 = ""
        · simp [handle_user_input, InputState.add_input, hs, hd, hu2] at hc
        · refine ⟨data, u2, ?_, hd, hu2⟩
          simp [handle_user_input, InputState.add_input,
            InputState.get_combined_hex, hs, hd, hu2] at hc
          exact hc.symm
  · constructor
    · intro hdata
      subst hdata
      simp [handle_user_input, InputState.add_input, hs]
    · intro c hc
      by_cases hd : data = ""
      · subst hd
        simp [handle_user_input, InputState.add_input, hs] at hc
      · by_cases hu1 : u1 = ""
        · simp [handle_user_input, InputState.add_input, hs, hd, hu1] at hc
        · refine ⟨u1, data, ?_, hu1, hd⟩
          simp [handle_user_input, InputState.add_input,
            InputState.get_combined_hex, hs, hd, hu1] at hc
          exact hc.symm

/-- Witness for C10: an empty `/uin2` half on top of a recorded
`/uin1` half emits nothing, and a completing fragment emits the
concatenation of the two non-empty halves. -/
theorem empty_half_never_completes_witness :
    (handle_user_input
      (fun k => if k = (("127.0.0.1", 1761) : SenderKey)
        then some { uin1 := "ABC" } else none)
      "/uin2" "" ("127.0.0.1", 1761) 0).2 = none
  ∧ ∃ s₁ s₂ : String, "ABCDEF" = s₁ ++ s₂ ∧ s₁ ≠ "" ∧ s₂ ≠ "" := by
  constructor
  · exact (empty_half_never_completes
      (fun k => if k = (("127.0.0.1", 1761) : SenderKey)
        then some { uin1 := "ABC" } else none)
      "/uin2" "" ("127.0.0.1", 1761) 0 (Or.inr rfl)).1 rfl
  · exact (empty_half_never_completes
      (fun k => if k = (("127.0.0.1", 1761) : SenderKey)
        then some { uin1 := "ABC" } else none)
      "/uin2" "DEF" ("127.0.0.1", 1761) 0 (Or.inr rfl)).2 "ABCDEF" (by decide)

/-- C7: when the address NUL is found, the type-tag section starts
inside the buffer, but the computed payload offset is at or past the
end of the buffer, decoding succeeds (no rejection) and returns the
decoded address with an empty payload. -/
theorem decode_short_payload (data : List Nat) (addressEnd : Nat)
    (h₁ : findZero data = some addressEnd)
    (h₂ : alignDown4 addressEnd < data.length)
    (h₃ : data.length ≤ alignDown4
        (match findZeroFrom data (alignDown4 addressEnd) with
          | some j => j
          | none => data.length)) :
    decode_osc_message data = some (data.take addressEnd, []) := by
  unfold decode_osc_message
  rw [h₁]
  dsimp only
  rw [if_neg (not_le.mpr h₂), if_pos h₃]

/-- Witness for C7: the 8-byte frame `"/ab\x00,i\x00\x00"` has its
payload offset computed as 8 = its length, and decodes to the address
`/ab` with an empty payload. -/
theorem decode_short_payload_witness :
    decode_osc_message [47, 97, 98, 0, 44, 105, 0, 0]
      = some ([47, 97, 98], []) :=
  decode_short_payload [47, 97, 98, 0, 44, 105, 0, 0] 3
    (by decide) (by decide) (by decide)

/-- `findZero` finds the NUL right after a NUL-free block. -/
theorem findZero_append (l r : List Nat) (hl : ∀ b ∈ l, b ≠ 0) :
    findZero (l ++ 0 :: r) = some l.length := by
  induction l with
  | nil => simp [findZero]
  | cons b bs ih =>
    have hb : b ≠ 0 := hl b (by simp)
    rw [List.cons_append, findZero, if_neg hb,
      ih fun x hx => hl x (by simp [hx])]
    rfl

/-- Decoding a frame of the shape produced by the encoder — NUL-free
address, NUL terminator, `pad` zero bytes aligning the type-tag block
to a 4-byte boundary, the type tag `,i\x00\x00`, and a 4-byte payload
— recovers the address and the payload bytes. -/
theorem decode_encode_frame (addr rest : List Nat) (pad : Nat)
    (haddr : ∀ b ∈ addr, b ≠ 0) (hrest : rest.length = 4)
    (hpad : addr.length + 1 + pad = alignDown4 addr.length) :
    decode_osc_message
        (addr ++ 0 :: (List.replicate pad 0 ++ (44 :: 105 :: 0 :: 0 :: rest)))
      = some (addr, rest) := by
  have hfz := findZero_append addr
    (List.replicate pad 0 ++ (44 :: 105 :: 0 :: 0 :: rest)) haddr
  have hlen :
      (addr ++ 0 :: (List.replicate pad 0
          ++ (44 :: 105 :: 0 :: 0 :: rest))).length
        = addr.length + 1 + pad + 4 + rest.length := by
    simp
    omega
  have hgrp1 : addr ++ 0 :: (List.replicate pad 0
          ++ (44 :: 105 :: 0 :: 0 :: rest))
        = (addr ++ 0 :: List.replicate pad 0)
          ++ (44 :: 105 :: 0 :: 0 :: rest) := by
    simp
  have hdrop1 :
      (addr ++ 0 :: (List.replicate pad 0
          ++ (44 :: 105 :: 0 :: 0 :: rest))).drop (alignDown4 addr.length)
        = 44 :: 105 :: 0 :: 0 :: rest := by
    rw [hgrp1]
    exact List.drop_left' (by simp; omega)
  have hfzf :
      findZeroFrom (addr ++ 0 :: (List.replicate pad 0
          ++ (44 :: 105 :: 0 :: 0 :: rest))) (alignDown4 addr.length)
        = some (2 + alignDown4 addr.length) := by
    rw [findZeroFrom, hdrop1]
    simp [findZero]
  have halign : alignDown4 (2 + alignDown4 addr.length)
      = alignDown4 addr.length + 4 := by
    simp only [alignDown4]
    omega
  have hgrp2 : addr ++ 0 :: (List.replicate pad 0
          ++ (44 :: 105 :: 0 :: 0 :: rest))
        = (addr ++ 0 :: (List.replicate pad 0 ++ [44, 105, 0, 0])) ++ rest := by
    simp
  have hdrop2 :
      (addr ++ 0 :: (List.replicate pad 0
          ++ (44 :: 105 :: 0 :: 0 :: rest))).drop
          (alignDown4 addr.length + 4)
        = rest := by
    rw [hgrp2]
    exact List.drop_left' (by simp; omega)
  have htake :
      (addr ++ 0 :: (List.replicate pad 0
          ++ (44 :: 105 :: 0 :: 0 :: rest))).take addr.length = addr :=
    List.take_left addr _
  unfold decode_osc_message
  rw [hfz]
  dsimp only
  rw [hfzf]
  dsimp only
  rw [if_neg (by rw [not_le, hlen]; omega), halign,
    if_neg (by rw [not_le, hlen]; omega), hdrop2, htake]

/-- C5: for every ASCII address without an embedded NUL and every
signed 32-bit integer, decoding the encoded frame recovers the address
exactly together with the payload bytes after the type-tag block,
those payload bytes are exactly `int32BE value`, which is 4 bytes long
and whose big-endian value is the two's-complement residue
`value mod 2^32`. -/
theorem codec_round_trip (addr : List Nat) (v : Int)
    (haddr : ∀ b ∈ addr, 0 < b ∧ b < 128)
    (hlo : -(2 ^ 31) ≤ v) (hhi : v < 2 ^ 31) :
    decode_osc_message (encode_osc_message addr v) = some (addr, int32BE v)
  ∧ (int32BE v).length = 4
  ∧ beVal (int32BE v) = (v % 2 ^ 32).toNat := by
  refine ⟨?_, rfl, ?_⟩
  · have henc : encode_osc_message addr v
        = addr ++ 0 :: (List.replicate ((4 - (addr.length + 1) % 4) % 4) 0
            ++ (44 :: 105 :: 0 :: 0 :: int32BE v)) := by
      simp [encode_osc_message]
    rw [henc]
    exact decode_encode_frame addr (int32BE v) _
      (fun b hb => (haddr b hb).1.ne') rfl
      (by simp only [alignDown4]; omega)
  · have h0 : (0 : Int) ≤ v % 2 ^ 32 := Int.emod_nonneg v (by norm_num)
    have h1 : v % 2 ^ 32 < 2 ^ 32 := Int.emod_lt_of_pos v (by norm_num)
    have hu : (v % 2 ^ 32).toNat < 2 ^ 32 := by omega
    simp only [int32BE, beVal, List.foldl]
    omega

/-- Witness for C5 at the address `"/s"` and the negative value `-2`,
whose two's-complement payload is `FF FF FF FE`. -/
theorem codec_round_trip_witness :
    decode_osc_message (encode_osc_message [47, 115] (-2))
      = some ([47, 115], int32BE (-2))
  ∧ (int32BE (-2)).length = 4
  ∧ beVal (int32BE (-2)) = ((-2 : Int) % 2 ^ 32).toNat :=
  codec_round_trip [47, 115] (-2) (by decide) (by decide) (by decide)

/-- `getD` after `set` at a different index is unchanged. -/
theorem getD_set_ne (l : List α) (i j : Nat) (a d : α) (h : i ≠ j) :
    (l.set i a).getD j d = l.getD j d := by
  rw [List.getD_eq_getD_get?, List.getD_eq_getD_get?, List.get?_eq_getElem?,
    List.get?_eq_getElem?, List.getElem?_set_ne h]

/-- Reading every position of a list back, in order, yields the list. -/
theorem getD_range_map (l : List α) (d : α) :
    (List.range l.length).map (fun i => l.getD i d) = l := by
  induction l with
  | nil => rfl
  | cons a l ih =>
    rw [List.length_cons, List.range_succ_eq_map, List.map_cons, List.map_map]
    rw [show ((fun i => (a :: l).getD i d) ∘ Nat.succ)
        = fun i => l.getD i d from funext fun i => List.getD_cons_succ]
    rw [ih]
    rfl

/-- C9: (pure level) on a successful update `previous` becomes the
pre-update `current`; (heap level) the snapshot `SystemState.copy`
allocates independent storage: the copy reads back equal to the
original, and any later in-place write to one of the original's rank
cells leaves every field read through the copy unchanged. -/
theorem snapshot_previous_independent :
    (∀ (e : EngineState) (combinedHex : List Char),
      (update_from_combined_input e.current combinedHex).2 = true →
      (process_input e combinedHex).1.previous = e.current)
  ∧ ∀ (s : StoredSystemState) (st : Store), StoredWF s st →
      readStored (copyStored s st).1 (copyStored s st).2 = readStored s st
      ∧ ∀ r v, r ∈ s.rankRefs →
          readStored (copyStored s st).1 ((copyStored s st).2.set r v)
            = readStored (copyStored s st).1 (copyStored s st).2 := by
  constructor
  · intro e combinedHex hok
    rcases hu : update_from_combined_input e.current combinedHex with ⟨c', ok⟩
    rw [hu] at hok
    simp only at hok
    simp [process_input, hu, hok]
  · intro s st hwf
    constructor
    · simp only [readStored, copyStored, List.map_map, SystemState.mk.injEq,
        true_and]
      rw [show ((fun r => (st ++ List.map (fun r => st.getD r []) s.rankRefs).getD r [])
            ∘ (st.length + ·))
          = fun i => (List.map (fun r => st.getD r []) s.rankRefs).getD i [] from
        funext fun i => by
          rw [Function.comp_apply, List.getD_append_right _ _ _ _ (by omega)]
          congr 1
          omega]
      rw [show s.rankRefs.length
          = (List.map (fun r => st.getD r []) s.rankRefs).length by
        rw [List.length_map]]
      exact getD_range_map _ _
    · intro r v hr
      have hrlt : r < st.length := hwf r hr
      simp only [readStored, copyStored, List.map_map, SystemState.mk.injEq,
        true_and]
      exact List.map_congr_left fun i _ => by
        rw [Function.comp_apply, Function.comp_apply,
          getD_set_ne _ _ _ _ _ (by omega)]

/-- Witness for C9: a successful concrete update snapshots the old
current state into `previous`, and for a one-rank stored state the
copy reads back equal and survives an in-place write to the
original's cell. -/
theorem snapshot_previous_independent_witness :
    (process_input { current := { sustain := 5 } }
        ('0' :: '1' :: '2' :: List.replicate 32 '0')).1.previous
      = ({ sustain := 5 } : SystemState)
  ∧ readStored (copyStored { rankRefs := [0] } [[1, 2, 3, 4]]).1
        (copyStored { rankRefs := [0] } [[1, 2, 3, 4]]).2
      = readStored { rankRefs := [0] } [[1, 2, 3, 4]]
  ∧ readStored (copyStored { rankRefs := [0] } [[1, 2, 3, 4]]).1
        ((copyStored { rankRefs := [0] } [[1, 2, 3, 4]]).2.set 0 [9, 9, 9, 9])
      = readStored (copyStored { rankRefs := [0] } [[1, 2, 3, 4]]).1
        (copyStored { rankRefs := [0] } [[1, 2, 3, 4]]).2 :=
  ⟨snapshot_previous_independent.1 { current := { sustain := 5 } }
      ('0' :: '1' :: '2' :: List.replicate 32 '0') (by decide),
   (snapshot_previous_independent.2 { rankRefs := [0] } [[1, 2, 3, 4]]
      (by simp [StoredWF])).1,
   (snapshot_previous_independent.2 { rankRefs := [0] } [[1, 2, 3, 4]]
      (by simp [StoredWF])).2 0 [9, 9, 9, 9] (by decide)⟩

end Necromoire
